import Mathlib

/-!
Verification of the NBA "allowed by position" pipeline
(`scripts/nba_allowed_by_position.py`).

The script's core is a pure batch computation over in-memory tables:
* `parse_opponent_from_matchup` — extract the defending team from a matchup
  string,
* `normalize_position` — coarse G/F/C/UNK position classification,
* a window selector (sort team logs by (TEAM_ID, GAME_DATE), take the last N
  rows per team, collect GAME_IDs into a per-abbreviation set),
* a log reconciler (filter player rows by window membership, left-merge bio
  positions, drop unknown positions),
* a two-phase aggregator (groupby-sum per (team, position, game), then
  groupby-mean per (team, position)),
* `top_bottom_10` — the ranker.

The embedding below models pandas DataFrames as lists of structures and the
pandas operations used by the script as list functions:
* `sort_values` on a single key performs an ascending argsort and, for
  `ascending=False`, reverses that argsort (pandas `nargsort`); the ascending
  argsort is modelled as a stable insertion sort (exact for the small frames
  ranked here, where numpy's introsort is a stable insertion sort);
* `groupby(...).agg` sorts the group keys (pandas default `sort=True`) and
  applies the aggregation to the rows of each group;
* float64 statistics are modelled by exact rationals;
* `parts[-1]` on a possibly-empty list (a Python `IndexError`) is modelled
  with `Option`.

Lines 117-118 of the source repeat a `.get_data_frames()[0]` fragment; this
only affects the out-of-scope fetch plumbing and the embedding models the
evident data flow of the core pipeline.
-/

namespace NbaPos

/-! ## Generic list machinery: stable insertion sort -/

/-- Insert `x` into `l`, walking past exactly the elements strictly below it:
`x` lands before any element it ties with.  Used to model a stable ascending
sort. -/
def insertLt (lt : α → α → Bool) (x : α) : List α → List α
  | [] => [x]
  | y :: ys => if lt y x then y :: insertLt lt x ys else x :: y :: ys

/-- Stable ascending insertion sort by the strict comparison `lt`. -/
def sortByLt (lt : α → α → Bool) : List α → List α
  | [] => []
  | x :: xs => insertLt lt x (sortByLt lt xs)

theorem insertLt_perm (lt : α → α → Bool) (x : α) :
    ∀ l : List α, (insertLt lt x l).Perm (x :: l)
  | [] => List.Perm.refl _
  | y :: ys => by
    unfold insertLt
    by_cases h : lt y x = true
    · simp only [h, if_pos]
      exact ((insertLt_perm lt x ys).cons y).trans (List.Perm.swap x y ys)
    · simp only [h, if_neg]
      rfl

theorem sortByLt_perm (lt : α → α → Bool) :
    ∀ l : List α, (sortByLt lt l).Perm l
  | [] => List.Perm.refl _
  | x :: xs =>
    (insertLt_perm lt x (sortByLt lt xs)).trans ((sortByLt_perm lt xs).cons x)

theorem mem_sortByLt (lt : α → α → Bool) (l : List α) (a : α) :
    a ∈ sortByLt lt l ↔ a ∈ l :=
  (sortByLt_perm lt l).mem_iff

/-- If `lt` is asymmetric and its complement is transitive, insertion keeps
the list pairwise ordered by the complement of `lt`. -/
theorem pairwise_insertLt (lt : α → α → Bool)
    (hasymm : ∀ a b, lt a b = true → lt b a = false)
    (hnegtrans : ∀ a b c, lt b a = false → lt c b = false → lt c a = false)
    (x : α) : ∀ l : List α, l.Pairwise (fun a b => lt b a = false) →
      (insertLt lt x l).Pairwise (fun a b => lt b a = false)
  | [], _ => List.pairwise_singleton _ x
  | y :: ys, h => by
    rcases List.pairwise_cons.mp h with ⟨hy, hys⟩
    unfold insertLt
    by_cases hxy : lt y x = true
    · simp only [hxy, if_pos]
      refine List.pairwise_cons.mpr ⟨?_, pairwise_insertLt lt hasymm hnegtrans x ys hys⟩
      intro z hz
      rcases List.mem_cons.mp ((insertLt_perm lt x ys).mem_iff.mp hz) with hz | hz
      · subst hz; exact hasymm _ _ hxy
      · exact hy z hz
    · simp only [hxy, if_neg]
      refine List.pairwise_cons.mpr ⟨?_, h⟩
      intro z hz
      rcases List.mem_cons.mp hz with hz | hz
      · subst hz; exact Bool.eq_false_iff.mpr hxy
      · exact hnegtrans x y z (Bool.eq_false_iff.mpr hxy) (hy z hz)

theorem pairwise_sortByLt (lt : α → α → Bool)
    (hasymm : ∀ a b, lt a b = true → lt b a = false)
    (hnegtrans : ∀ a b c, lt b a = false → lt c b = false → lt c a = false) :
    ∀ l : List α, (sortByLt lt l).Pairwise (fun a b => lt b a = false)
  | [] => List.Pairwise.nil
  | x :: xs =>
    pairwise_insertLt lt hasymm hnegtrans x _ (pairwise_sortByLt lt hasymm hnegtrans xs)

/-- The last `n` elements of a list: the model of pandas `tail(n)`. -/
def lastN (n : Nat) (l : List α) : List α := l.drop (l.length - n)

theorem lastN_length (n : Nat) (l : List α) : (lastN n l).length = min n l.length := by
  simp [lastN]; omega

theorem lastN_sublist (n : Nat) (l : List α) : (lastN n l).Sublist l :=
  List.drop_sublist _ l

theorem lastN_eq_self (n : Nat) (l : List α) (h : l.length ≤ n) : lastN n l = l := by
  unfold lastN
  have : l.length - n = 0 := by omega
  simp [this]

/-! ## Python string primitives used by the script -/

/-- Model of `matchup.replace("vs.", "vs")`, the one `str.replace` call in
the script, specialised to its literal arguments: scan left to right,
rewriting each non-overlapping occurrence of `"vs."` to `"vs"`. -/
def replaceVs : List Char → List Char
  | 'v' :: 's' :: '.' :: rest => 'v' :: 's' :: replaceVs rest
  | c :: cs => c :: replaceVs cs
  | [] => []

/-- Model of argument-less Python `str.split()`: split on runs of whitespace,
producing no empty tokens.  `acc` holds the current token, reversed. -/
def pySplitWsAux : List Char → List Char → List (List Char)
  | acc, [] => if acc = [] then [] else [acc.reverse]
  | acc, c :: cs =>
    if c.isWhitespace then
      if acc = [] then pySplitWsAux [] cs else acc.reverse :: pySplitWsAux [] cs
    else pySplitWsAux (c :: acc) cs

def pySplitWs (l : List Char) : List (List Char) := pySplitWsAux [] l

/-! ## `parse_opponent_from_matchup` (source lines 53-55)

`matchup.replace("vs.", "vs").split()` followed by `parts[-1]`.  Indexing the
empty token list raises `IndexError` in Python; the embedding returns `none`
in that case and `some` of the last token otherwise. -/

def matchupTokens (matchup : String) : List (List Char) :=
  pySplitWs (replaceVs matchup.data)

def parse_opponent_from_matchup (matchup : String) : Option String :=
  (matchupTokens matchup).getLast?.map String.mk

/-! ## `normalize_position` (source lines 58-66) -/

/-- Python `str.strip()`: drop whitespace from both ends. -/
def pyStrip (l : List Char) : List Char :=
  ((l.dropWhile Char.isWhitespace).reverse.dropWhile Char.isWhitespace).reverse

/-- The characters of `(pos or "").upper().strip()`. -/
def normInput (pos : Option String) : List Char :=
  pyStrip ((pos.getD "").data.map Char.toUpper)

/-- `(pos or "").upper().strip()`, then the G / F / C containment cascade
(`"G" in p` is single-character containment).  A Python `None` argument is
modelled by `none`; `pos or ""` maps both `None` and `""` to `""`.  ASCII
uppercasing suffices for the position labels the bio source produces. -/
def normalize_position (pos : Option String) : String :=
  let p := normInput pos
  if p.contains 'G' then "G"
  else if p.contains 'F' then "F"
  else if p.contains 'C' then "C"
  else "UNK"

/-! ## `top_bottom_10` (source lines 69-79)

One row of the `allowed` frame restricted to one position and one statistic
column. -/

structure AllowedEntry where
  team : String
  value : ℚ
deriving DecidableEq

/-- Strict comparison on the statistic column. -/
def valLt (a b : AllowedEntry) : Bool := decide (a.value < b.value)

/-- `df.sort_values(stat_col)`: a stable ascending sort on the column. -/
def sortEntriesAsc (df : List AllowedEntry) : List AllowedEntry := sortByLt valLt df

/-- `df.sort_values(stat_col, ascending=False)`: pandas `nargsort` computes
the ascending argsort and reverses it when `ascending=False`, so equal keys
appear in reverse input order. -/
def sortEntriesDesc (df : List AllowedEntry) : List AllowedEntry :=
  (sortEntriesAsc df).reverse

structure RankedRow where
  rank : Nat
  group : String
  team : String
  value : ℚ
deriving DecidableEq

/-- `insert(0, "RANK", range(1, len+1))` and `insert(1, "GROUP", g)`. -/
def rankify (g : String) (l : List AllowedEntry) : List RankedRow :=
  l.enum.map (fun p => ⟨p.1 + 1, g, p.2.team, p.2.value⟩)

/-- `df.head(10)` of the descending sort, rank-numbered. -/
def topRows (df : List AllowedEntry) : List RankedRow :=
  rankify "MOST ALLOWED" ((sortEntriesDesc df).take 10)

/-- `df.tail(10).sort_values(stat_col, ascending=True)`, rank-numbered. -/
def bottomRows (df : List AllowedEntry) : List RankedRow :=
  rankify "LEAST ALLOWED" (sortByLt valLt (lastN 10 (sortEntriesDesc df)))

/-- `pd.concat([top, bottom], ignore_index=True)`. -/
def top_bottom_10 (df : List AllowedEntry) : List RankedRow :=
  topRows df ++ bottomRows df

/-! ## Window selector (source lines 140-148)

`team_logs.sort_values(["TEAM_ID","GAME_DATE"])`, then
`groupby("TEAM_ID").tail(last_n_games_per_team)`, then
`groupby("TEAM_ABBREVIATION")["GAME_ID"].apply(set).to_dict()`.
`GAME_DATE` is modelled as a chronological ordinal (`pd.to_datetime` makes
the column totally ordered by date). -/

structure TeamLogRow where
  teamId : Int
  abbr : String
  gameId : String
  date : Nat
deriving DecidableEq

/-- Strict lexicographic comparison on `(TEAM_ID, GAME_DATE)`. -/
def teamKeyLt (a b : TeamLogRow) : Bool :=
  decide (a.teamId < b.teamId) || (a.teamId == b.teamId && decide (a.date < b.date))

def sortTeamLogs (logs : List TeamLogRow) : List TeamLogRow := sortByLt teamKeyLt logs

/-- The distinct `TEAM_ID` group keys. -/
def teamIds (logs : List TeamLogRow) : List Int := (logs.map (·.teamId)).dedup

/-- `groupby("TEAM_ID").tail(n)` of the sorted frame: for each team the last
`n` of its date-sorted rows.  (Row order is irrelevant downstream — only the
per-abbreviation game-id sets are consumed.) -/
def team_last (logs : List TeamLogRow) (n : Nat) : List TeamLogRow :=
  (teamIds logs).flatMap
    (fun tid => lastN n ((sortTeamLogs logs).filter (fun r => r.teamId == tid)))

/-- The `team_games_map` dict: abbreviation → set of `GAME_ID`s; `none` for
an abbreviation with no entry (Python `dict.get` returning `None`). -/
def team_games_map (logs : List TeamLogRow) (n : Nat) (abbr : String) :
    Option (Finset String) :=
  if ((team_last logs n).filter (fun r => r.abbr == abbr)).isEmpty then none
  else some ((((team_last logs n).filter (fun r => r.abbr == abbr)).map (·.gameId)).toFinset)

/-! ## Log reconciler (source lines 158-173) -/

structure PlayerLogRow where
  gameId : String
  matchup : String
  playerId : Int
  pts : Int
  ast : Int
  reb : Int
deriving DecidableEq

structure BioRow where
  playerId : Int
  playerName : String
  rawPos : String
deriving DecidableEq

/-- `DEF_TEAM_ABBR`: the opponent parsed from `MATCHUP`.  A matchup with no
tokens raises `IndexError` in Python (aborting the whole run); such rows are
given the defending team `""` here, and the reconciler theorems quantify over
arbitrary window maps, so the distinction is immaterial to them. -/
def defTeamOf (r : PlayerLogRow) : String :=
  (parse_opponent_from_matchup r.matchup).getD ""

/-- The `in_last_n` row predicate: the defending team has a window entry and
the row's game is in it (`games is not None and row["GAME_ID"] in games`). -/
def in_last_n (tmap : String → Option (Finset String)) (r : PlayerLogRow) : Bool :=
  match tmap (defTeamOf r) with
  | some games => decide (r.gameId ∈ games)
  | none => false

structure MergedRow where
  src : PlayerLogRow
  defTeam : String
  posGroup : Option String
deriving DecidableEq

/-- The `how="left"` merge on `PLAYER_ID` against `bio[["PLAYER_ID",
"POS_GROUP"]]`: each matching bio row contributes one output row; a player
with no bio match keeps the row with `POS_GROUP` missing (NaN). -/
def leftMergeBio (bio : List BioRow) (r : PlayerLogRow) : List MergedRow :=
  let ms := bio.filter (fun b => b.playerId == r.playerId)
  if ms.isEmpty then [⟨r, defTeamOf r, none⟩]
  else ms.map (fun b => ⟨r, defTeamOf r, some (normalize_position (some b.rawPos))⟩)

/-- `merged["POS_GROUP"].isin(["G","F","C"])` — NaN compares unequal to
every member. -/
def posGroupOk (m : MergedRow) : Bool :=
  match m.posGroup with
  | some p => p == "G" || p == "F" || p == "C"
  | none => false

/-- Lines 162-173: filter by `in_last_n`, left-merge the bio positions,
`dropna(subset=["POS_GROUP"])`, then keep only G/F/C rows. -/
def reconcile (plogs : List PlayerLogRow) (bio : List BioRow)
    (tmap : String → Option (Finset String)) : List MergedRow :=
  ((((plogs.filter (in_last_n tmap)).flatMap (leftMergeBio bio)).filter
      (fun m => m.posGroup.isSome)).filter posGroupOk)

/-! ## Aggregator (source lines 176-185)

The reconciled frame projected to the columns the aggregation reads. -/

structure StatRow where
  defTeam : String
  posGroup : String
  gameId : String
  pts : Int
  ast : Int
  reb : Int
deriving DecidableEq

/-- Projection of the surviving merged rows to the aggregation columns. -/
def toStatRows (ms : List MergedRow) : List StatRow :=
  ms.map (fun m => ⟨m.defTeam, m.posGroup.getD "", m.src.gameId,
    m.src.pts, m.src.ast, m.src.reb⟩)

def statKey (r : StatRow) : String × String × String := (r.defTeam, r.posGroup, r.gameId)

/-- Lexicographic comparison of character lists (Python string ordering). -/
def charsLt : List Char → List Char → Bool
  | [], [] => false
  | [], _ :: _ => true
  | _ :: _, [] => false
  | a :: as, b :: bs => if a < b then true else if b < a then false else charsLt as bs

/-- Strict comparison of group-key strings, as pandas sorts them. -/
def strLt (a b : String) : Bool := charsLt a.data b.data

/-- Lexicographic order on the phase-1 group key. -/
def pgKeyLt (k1 k2 : String × String × String) : Bool :=
  strLt k1.1 k2.1 ||
    (k1.1 == k2.1 && (strLt k1.2.1 k2.2.1 ||
      (k1.2.1 == k2.2.1 && strLt k1.2.2 k2.2.2)))

/-- The distinct `(DEF_TEAM_ABBR, POS_GROUP, GAME_ID)` group keys, sorted as
pandas `groupby` (default `sort=True`) emits them. -/
def pgKeys (rows : List StatRow) : List (String × String × String) :=
  sortByLt pgKeyLt ((rows.map statKey).dedup)

def groupRows (rows : List StatRow) (k : String × String × String) : List StatRow :=
  rows.filter (fun r => statKey r == k)

structure PerGameRow where
  defTeam : String
  posGroup : String
  gameId : String
  pts : Int
  ast : Int
  reb : Int
deriving DecidableEq

/-- One phase-1 output row: the groupwise `sum()` of PTS/AST/REB. -/
def mkPerGame (rows : List StatRow) (k : String × String × String) : PerGameRow :=
  ⟨k.1, k.2.1, k.2.2, ((groupRows rows k).map (·.pts)).sum,
    ((groupRows rows k).map (·.ast)).sum, ((groupRows rows k).map (·.reb)).sum⟩

/-- Phase 1: `merged.groupby(["DEF_TEAM_ABBR","POS_GROUP","GAME_ID"]).sum()`. -/
def per_game (rows : List StatRow) : List PerGameRow :=
  (pgKeys rows).map (mkPerGame rows)

def tpKey (g : PerGameRow) : String × String := (g.defTeam, g.posGroup)

/-- Lexicographic order on the phase-2 group key. -/
def tpKeyLt (k1 k2 : String × String) : Bool :=
  strLt k1.1 k2.1 || (k1.1 == k2.1 && strLt k1.2 k2.2)

def tpKeys (pgs : List PerGameRow) : List (String × String) :=
  sortByLt tpKeyLt ((pgs.map tpKey).dedup)

/-- Pandas `mean()` of an integer column, as an exact rational. -/
def meanInt (l : List Int) : ℚ := ((l.sum : ℤ) : ℚ) / (l.length : ℚ)

structure AllowedRow where
  defTeam : String
  posGroup : String
  ptsAllowed : ℚ
  astAllowed : ℚ
  rebAllowed : ℚ
deriving DecidableEq

/-- One phase-2 output row: the groupwise `mean()` over that pair's phase-1
rows. -/
def mkAllowed (pgs : List PerGameRow) (k : String × String) : AllowedRow :=
  ⟨k.1, k.2, meanInt ((pgs.filter (fun g => tpKey g == k)).map (·.pts)),
    meanInt ((pgs.filter (fun g => tpKey g == k)).map (·.ast)),
    meanInt ((pgs.filter (fun g => tpKey g == k)).map (·.reb))⟩

/-- Phase 2: `per_game.groupby(["DEF_TEAM_ABBR","POS_GROUP"]).mean()`. -/
def allowed (rows : List StatRow) : List AllowedRow :=
  (tpKeys (per_game rows)).map (mkAllowed (per_game rows))

/-! ## `build_rank` (source lines 190-193) -/

inductive Stat
  | pts
  | ast
  | reb
deriving DecidableEq

/-- Selecting the `{stat}_ALLOWED` column. -/
def statValue : AllowedRow → Stat → ℚ
  | a, .pts => a.ptsAllowed
  | a, .ast => a.astAllowed
  | a, .reb => a.rebAllowed

/-- `allowed[allowed["POS_GROUP"] == pos][["DEF_TEAM_ABBR", stat]]` fed to
`top_bottom_10`. -/
def build_rank (allowedRows : List AllowedRow) (pos : String) (stat : Stat) :
    List RankedRow :=
  top_bottom_10 ((allowedRows.filter (fun a => a.posGroup == pos)).map
    (fun a => ⟨a.defTeam, statValue a stat⟩))

/-! ## Spec-side description of the aggregation (for the refinement claims)

These definitions follow the words of the specification (§4.5): "group by
(defending_team, position, game_id); sum … across all matching players in
that single game", then "take the arithmetic mean across games". -/

def rowsFor (rows : List StatRow) (t p : String) : List StatRow :=
  rows.filter (fun r => r.defTeam == t && r.posGroup == p)

/-- The distinct games in which at least one reconciled row for the pair
`(t, p)` appears. -/
def gamesFor (rows : List StatRow) (t p : String) : List String :=
  ((rowsFor rows t p).map (·.gameId)).dedup

/-- The phase-1 sum of one statistic for `(t, p)` in the single game `g`. -/
def gameSum (rows : List StatRow) (t p g : String) (f : StatRow → Int) : Int :=
  ((rows.filter (fun r => r.defTeam == t && r.posGroup == p && r.gameId == g)).map f).sum

/-- The spec's AllowedRate: the arithmetic mean of the per-game sums across
the pair's games. -/
def specAllowedMean (rows : List StatRow) (t p : String) (f : StatRow → Int) : ℚ :=
  ((((gamesFor rows t p).map (fun g => gameSum rows t p g f)).sum : ℤ) : ℚ) /
    ((gamesFor rows t p).length : ℚ)

/-! ## Lemmas about the string primitives -/

theorem replaceVs_cons_ne {c : Char} (hc : c ≠ 'v') (cs : List Char) :
    replaceVs (c :: cs) = c :: replaceVs cs := by
  rw [replaceVs.eq_def]
  split
  · next rest heq => exact absurd (by injection heq) hc
  · next c2 cs2 heq => injection heq with h1 h2; subst h1; subst h2; rfl
  · next heq => exact absurd heq (by simp)

theorem replaceVs_append_of_no_v :
    ∀ A : List Char, (∀ c ∈ A, c ≠ 'v') → ∀ rest : List Char,
      replaceVs (A ++ rest) = A ++ replaceVs rest
  | [], _, rest => by simp
  | c :: A, h, rest => by
    rw [List.cons_append, replaceVs_cons_ne (h c (by simp)),
      replaceVs_append_of_no_v A (fun d hd => h d (by simp [hd])) rest]
    rfl

theorem replaceVs_of_no_v (l : List Char) (h : ∀ c ∈ l, c ≠ 'v') :
    replaceVs l = l := by
  have h2 := replaceVs_append_of_no_v l h []
  simpa [show replaceVs [] = [] from rfl] using h2

theorem pySplitWsAux_nonws :
    ∀ A : List Char, (∀ c ∈ A, c.isWhitespace = false) → ∀ acc rest,
      pySplitWsAux acc (A ++ rest) = pySplitWsAux (A.reverse ++ acc) rest
  | [], _, acc, rest => by simp
  | c :: A, h, acc, rest => by
    have hc : c.isWhitespace = false := h c (by simp)
    rw [List.cons_append]
    show pySplitWsAux acc (c :: (A ++ rest)) = _
    rw [pySplitWsAux, if_neg (by simp [hc]),
      pySplitWsAux_nonws A (fun d hd => h d (by simp [hd])) (c :: acc) rest]
    simp

theorem pySplitWsAux_ws {w : Char} (hw : w.isWhitespace = true) (acc rest : List Char) :
    pySplitWsAux acc (w :: rest) =
      if acc = [] then pySplitWsAux [] rest else acc.reverse :: pySplitWsAux [] rest := by
  rw [pySplitWsAux, if_pos (by simp [hw])]

theorem pySplitWs_token (B : List Char) (hB : ∀ c ∈ B, c.isWhitespace = false)
    (hne : B ≠ []) : pySplitWs B = [B] := by
  have h := pySplitWsAux_nonws B hB [] []
  unfold pySplitWs
  rw [show pySplitWsAux [] B = pySplitWsAux [] (B ++ []) by simp, h]
  show (if B.reverse ++ [] = [] then _ else _) = _
  rw [if_neg (by simpa using hne)]
  simp

theorem pySplitWsAux_allws :
    ∀ l : List Char, (∀ c ∈ l, c.isWhitespace = true) → pySplitWsAux [] l = []
  | [], _ => rfl
  | c :: cs, h => by
    rw [pySplitWsAux, if_pos (by simp [h c (by simp)]), if_pos rfl]
    exact pySplitWsAux_allws cs (fun d hd => h d (by simp [hd]))

theorem isWs_ne_v {c : Char} (h : c.isWhitespace = true) : c ≠ 'v' := by
  intro e; subst e; exact absurd h (by decide)

theorem isUpper_ne_v {c : Char} (h : c.isUpper = true) : c ≠ 'v' := by
  intro e; subst e; exact absurd h (by decide)

theorem isUpper_not_ws {c : Char} (h : c.isUpper = true) : c.isWhitespace = false := by
  by_contra hws
  rw [Bool.not_eq_false] at hws
  have h4 : ((c = ' ' ∨ c = '\t') ∨ c = '\r') ∨ c = '\n' := by
    simpa [Char.isWhitespace] using hws
  rcases h4 with ((h1 | h1) | h1) | h1 <;> (subst h1; exact absurd h (by decide))

/-- A well-formed team abbreviation: a non-empty run of uppercase letters. -/
def okAbbr (s : String) : Prop := s.data ≠ [] ∧ ∀ c ∈ s.data, c.isUpper = true

theorem contains_eq_true_iff (l : List Char) (c : Char) :
    l.contains c = true ↔ c ∈ l := List.elem_iff

theorem pySplitWs_three (A M B : List Char)
    (hA : ∀ c ∈ A, c.isWhitespace = false) (hM : ∀ c ∈ M, c.isWhitespace = false)
    (hB : ∀ c ∈ B, c.isWhitespace = false)
    (hAne : A ≠ []) (hMne : M ≠ []) (hBne : B ≠ []) :
    pySplitWs (A ++ ' ' :: (M ++ ' ' :: B)) = [A, M, B] := by
  unfold pySplitWs
  rw [pySplitWsAux_nonws A hA [] _, pySplitWsAux_ws (by decide),
    if_neg (by simpa using hAne)]
  rw [show (M ++ ' ' :: B) = M ++ (' ' :: B) from rfl]
  rw [pySplitWsAux_nonws M hM [] _, pySplitWsAux_ws (by decide),
    if_neg (by simpa using hMne)]
  rw [show pySplitWsAux ([] : List Char) B = pySplitWs B from rfl, pySplitWs_token B hB hBne]
  simp

/-! ## Claim C3: the position normalizer -/

/-- C3, counterexample: the claim asserts every output lies in
`{"G","F","C","UNKNOWN"}` and that unmatched labels yield `"UNKNOWN"`; the
code's fallback (source line 66) is the string `"UNK"`, which is none of the
four claimed values. -/
theorem C3_counterexample :
    normalize_position (some "") = "UNK" ∧
    normalize_position (some "") ∉ (["G", "F", "C", "UNKNOWN"] : List String) := by
  decide

/-- C3, amended: for every raw position label (including null and empty
strings) the normalizer returns one of `{"G","F","C","UNK"}`: after
uppercasing and trimming, a label containing `G` yields `"G"`, otherwise one
containing `F` yields `"F"`, otherwise one containing `C` yields `"C"`, and
anything else yields `"UNK"` (not `"UNKNOWN"`); it never fails on any input,
and every label containing both `G` and `C` resolves to `"G"`. -/
theorem C3_normalize_position (pos : Option String) :
    normalize_position pos ∈ (["G", "F", "C", "UNK"] : List String) ∧
    ('G' ∈ normInput pos → normalize_position pos = "G") ∧
    ('G' ∉ normInput pos → 'F' ∈ normInput pos → normalize_position pos = "F") ∧
    ('G' ∉ normInput pos → 'F' ∉ normInput pos → 'C' ∈ normInput pos →
      normalize_position pos = "C") ∧
    ('G' ∉ normInput pos → 'F' ∉ normInput pos → 'C' ∉ normInput pos →
      normalize_position pos = "UNK") ∧
    ('G' ∈ normInput pos → 'C' ∈ normInput pos → normalize_position pos = "G") := by
  by_cases hG : 'G' ∈ normInput pos <;> by_cases hF : 'F' ∈ normInput pos <;>
    by_cases hC : 'C' ∈ normInput pos <;>
    simp [normalize_position, contains_eq_true_iff, hG, hF, hC]

/-- C3, witness: the combination label `"G-C"` resolves to `"G"` and the
unclassifiable label `"x"` to `"UNK"`, by the amended theorem. -/
theorem C3_witness :
    normalize_position (some "G-C") = "G" ∧ normalize_position (some "x") = "UNK" := by
  constructor
  · exact (C3_normalize_position (some "G-C")).2.2.2.2.2 (by decide) (by decide)
  · exact (C3_normalize_position (some "x")).2.2.2.2.1 (by decide) (by decide) (by decide)

/-! ## Claim C6: determinism and tie-breaking -/

/-- C6: evaluation of the ranker at the failing input.  The input lists team
`"A"` before team `"B"` with equal statistic values, yet both output groups
list `"B"` first: `sort_values(ascending=False)` reverses the ascending
argsort (pandas `nargsort`), so equal values do not retain input order, and
the code requests no stable sorting anywhere (`kind` defaults to
`quicksort`). -/
theorem C6_tie_reversal :
    top_bottom_10 [⟨"A", 5⟩, ⟨"B", 5⟩] =
      [⟨1, "MOST ALLOWED", "B", 5⟩, ⟨2, "MOST ALLOWED", "A", 5⟩,
        ⟨1, "LEAST ALLOWED", "B", 5⟩, ⟨2, "LEAST ALLOWED", "A", 5⟩] := by
  decide

/-! ## Claim C8: the opponent resolver -/

/-- C8: for every matchup string of the form `"AAA vs. BBB"` and of the form
`"AAA @ BBB"` (with `AAA`, `BBB` team abbreviations: non-empty uppercase
words), the opponent resolver replaces `"vs."` by `"vs"`, splits on
whitespace, and returns the last token — `BBB` in both formats. -/
theorem C8_opponent_resolver (AAA BBB : String) (hA : okAbbr AAA) (hB : okAbbr BBB) :
    parse_opponent_from_matchup (AAA ++ " vs. " ++ BBB) = some BBB ∧
    parse_opponent_from_matchup (AAA ++ " @ " ++ BBB) = some BBB := by
  obtain ⟨hAne, hAup⟩ := hA
  obtain ⟨hBne, hBup⟩ := hB
  have hAnov : ∀ c ∈ AAA.data, c ≠ 'v' := fun c hc => isUpper_ne_v (hAup c hc)
  have hBnov : ∀ c ∈ BBB.data, c ≠ 'v' := fun c hc => isUpper_ne_v (hBup c hc)
  have hAnw : ∀ c ∈ AAA.data, c.isWhitespace = false := fun c hc => isUpper_not_ws (hAup c hc)
  have hBnw : ∀ c ∈ BBB.data, c.isWhitespace = false := fun c hc => isUpper_not_ws (hBup c hc)
  constructor
  · have hrep : replaceVs ((AAA ++ " vs. " ++ BBB).data) =
        AAA.data ++ ' ' :: (['v', 's'] ++ ' ' :: BBB.data) := by
      rw [show (AAA ++ " vs. " ++ BBB).data =
          AAA.data ++ (' ' :: 'v' :: 's' :: '.' :: ' ' :: BBB.data) by
        rw [show (AAA ++ " vs. " ++ BBB).data =
            (AAA.data ++ [' ', 'v', 's', '.', ' ']) ++ BBB.data from rfl, List.append_assoc]
        rfl]
      rw [replaceVs_append_of_no_v AAA.data hAnov]
      congr 1
      rw [replaceVs_cons_ne (by decide)]
      rw [show replaceVs ('v' :: 's' :: '.' :: ' ' :: BBB.data) =
          'v' :: 's' :: replaceVs (' ' :: BBB.data) from rfl]
      rw [replaceVs_cons_ne (by decide), replaceVs_of_no_v BBB.data hBnov]
      rfl
    have htok : matchupTokens (AAA ++ " vs. " ++ BBB) = [AAA.data, ['v', 's'], BBB.data] := by
      unfold matchupTokens
      rw [hrep]
      exact pySplitWs_three AAA.data ['v', 's'] BBB.data hAnw (by decide) hBnw
        hAne (by decide) hBne
    unfold parse_opponent_from_matchup
    rw [htok]
    rfl
  · have hrep : replaceVs ((AAA ++ " @ " ++ BBB).data) =
        AAA.data ++ ' ' :: (['@'] ++ ' ' :: BBB.data) := by
      rw [show (AAA ++ " @ " ++ BBB).data =
          AAA.data ++ (' ' :: '@' :: ' ' :: BBB.data) by
        rw [show (AAA ++ " @ " ++ BBB).data =
            (AAA.data ++ [' ', '@', ' ']) ++ BBB.data from rfl, List.append_assoc]
        rfl]
      rw [replaceVs_of_no_v]
      · rfl
      · intro c hc
        rcases List.mem_append.mp hc with h1 | h1
        · exact hAnov c h1
        · rcases List.mem_cons.mp h1 with h2 | h2
          · subst h2; decide
          · rcases List.mem_cons.mp h2 with h3 | h3
            · subst h3; decide
            · rcases List.mem_cons.mp h3 with h4 | h4
              · subst h4; decide
              · exact hBnov c h4
    have htok : matchupTokens (AAA ++ " @ " ++ BBB) = [AAA.data, ['@'], BBB.data] := by
      unfold matchupTokens
      rw [hrep]
      exact pySplitWs_three AAA.data ['@'] BBB.data hAnw (by decide) hBnw
        hAne (by decide) hBne
    unfold parse_opponent_from_matchup
    rw [htok]
    rfl

/-- C8, witness: both matchup formats at concrete abbreviations. -/
theorem C8_witness :
    parse_opponent_from_matchup ("LAL" ++ " vs. " ++ "BOS") = some "BOS" ∧
    parse_opponent_from_matchup ("LAL" ++ " @ " ++ "BOS") = some "BOS" :=
  C8_opponent_resolver "LAL" "BOS" ⟨by decide, by decide⟩ ⟨by decide, by decide⟩

/-! ## Claim C10: the opponent resolver performs no validation -/

/-- C10: any input whose token list (after the `"vs."` replacement) is
non-empty yields the last token — in particular the single-token input
`"BOS"` yields `"BOS"` itself — while an empty or whitespace-only input
produces no value (the modelled `IndexError` of `parts[-1]` on an empty
list). -/
theorem C10_no_validation :
    (∀ m : String, matchupTokens m ≠ [] →
      ∃ t, (matchupTokens m).getLast? = some t ∧
        parse_opponent_from_matchup m = some (String.mk t)) ∧
    parse_opponent_from_matchup "BOS" = some "BOS" ∧
    parse_opponent_from_matchup "" = none ∧
    (∀ m : String, (∀ c ∈ m.data, c.isWhitespace = true) →
      parse_opponent_from_matchup m = none) := by
  refine ⟨?_, by decide, by decide, ?_⟩
  · intro m hm
    refine ⟨(matchupTokens m).getLast hm, List.getLast?_eq_getLast _ hm, ?_⟩
    unfold parse_opponent_from_matchup
    rw [List.getLast?_eq_getLast _ hm]
    rfl
  · intro m hws
    unfold parse_opponent_from_matchup matchupTokens
    rw [replaceVs_of_no_v m.data (fun c hc => isWs_ne_v (hws c hc))]
    rw [show pySplitWs m.data = pySplitWsAux [] m.data from rfl,
      pySplitWsAux_allws m.data hws]
    rfl

/-- C10, witness: a two-token input returns its last token; a
whitespace-only input returns no value. -/
theorem C10_witness :
    (∃ t, (matchupTokens "PHX @ GSW").getLast? = some t ∧
      parse_opponent_from_matchup "PHX @ GSW" = some (String.mk t)) ∧
    parse_opponent_from_matchup " \t " = none := by
  constructor
  · exact C10_no_validation.1 "PHX @ GSW" (by decide)
  · exact C10_no_validation.2.2.2 " \t " (by decide)

/-! ## Aggregator bridging lemmas -/

theorem filter_cons_pos (l : List α) {p : α → Bool} {a : α} (h : p a = true) :
    (a :: l).filter p = a :: l.filter p := by simp [List.filter_cons, h]

theorem filter_cons_neg (l : List α) {p : α → Bool} {a : α} (h : ¬ p a = true) :
    (a :: l).filter p = l.filter p := by simp [List.filter_cons, Bool.eq_false_iff.mpr h]

theorem dedup_filter_map_key {α β γ : Type} [DecidableEq α] [DecidableEq β] [DecidableEq γ]
    (key : α → β) (sel : β → Bool) (proj : β → γ) (tag : γ → β)
    (htag : ∀ b, sel b = true → tag (proj b) = b)
    (hproj : ∀ b b', sel b = true → sel b' = true → proj b = proj b' → b = b') :
    ∀ rows : List α,
      ((rows.map key).dedup.filter sel) =
        (((rows.filter (fun a => sel (key a))).map (fun a => proj (key a))).dedup).map tag
  | [] => rfl
  | r :: rs => by
    have ih := dedup_filter_map_key key sel proj tag htag hproj rs
    by_cases hk : key r ∈ rs.map key
    · rw [List.map_cons, List.dedup_cons_of_mem hk]
      by_cases hs : sel (key r) = true
      · have hmem : proj (key r) ∈
            (rs.filter (fun a => sel (key a))).map (fun a => proj (key a)) := by
          rcases List.mem_map.mp hk with ⟨r', hr', hkey⟩
          exact List.mem_map.mpr ⟨r', List.mem_filter.mpr ⟨hr', by rw [hkey]; exact hs⟩,
            by rw [hkey]⟩
        have hstep : (r :: rs).filter (fun a => sel (key a)) =
            r :: rs.filter (fun a => sel (key a)) := filter_cons_pos rs hs
        rw [hstep, List.map_cons, List.dedup_cons_of_mem hmem]
        exact ih
      · have hstep : (r :: rs).filter (fun a => sel (key a)) =
            rs.filter (fun a => sel (key a)) := filter_cons_neg rs hs
        rw [hstep]
        exact ih
    · rw [List.map_cons, List.dedup_cons_of_not_mem hk]
      by_cases hs : sel (key r) = true
      · have hnmem : proj (key r) ∉
            (rs.filter (fun a => sel (key a))).map (fun a => proj (key a)) := by
          intro hmem
          rcases List.mem_map.mp hmem with ⟨r', hr', hpr⟩
          have hs' : sel (key r') = true := (List.mem_filter.mp hr').2
          have hkk : key r' = key r := hproj _ _ hs' hs hpr
          exact hk (hkk ▸ List.mem_map_of_mem key (List.mem_filter.mp hr').1)
        have hstepL : (key r :: (rs.map key).dedup).filter sel =
            key r :: ((rs.map key).dedup).filter sel := filter_cons_pos _ hs
        have hstepR : (r :: rs).filter (fun a => sel (key a)) =
            r :: rs.filter (fun a => sel (key a)) := filter_cons_pos rs hs
        rw [hstepL, hstepR, List.map_cons, List.dedup_cons_of_not_mem hnmem, List.map_cons,
          htag _ hs, ih]
      · have hstepL : (key r :: (rs.map key).dedup).filter sel =
            ((rs.map key).dedup).filter sel := filter_cons_neg _ hs
        have hstepR : (r :: rs).filter (fun a => sel (key a)) =
            rs.filter (fun a => sel (key a)) := filter_cons_neg rs hs
        rw [hstepL, hstepR]
        exact ih

theorem keySel_eq {t p : String} {k : String × String × String}
    (h : ((k.1, k.2.1) == (t, p)) = true) : k.1 = t ∧ k.2.1 = p := by
  have := beq_iff_eq.mp h
  exact ⟨congrArg Prod.fst this, congrArg Prod.snd this⟩

theorem pg_filter_eq_keys (rows : List StatRow) (t p : String) :
    (per_game rows).filter (fun g => tpKey g == (t, p)) =
      ((pgKeys rows).filter (fun k => (k.1, k.2.1) == (t, p))).map (mkPerGame rows) := by
  unfold per_game
  rw [List.filter_map]
  rfl

theorem dedup_keys_filter (rows : List StatRow) (t p : String) :
    ((rows.map statKey).dedup).filter (fun k => (k.1, k.2.1) == (t, p)) =
      (gamesFor rows t p).map (fun g => (t, p, g)) := by
  have h := dedup_filter_map_key statKey (fun k => (k.1, k.2.1) == (t, p))
    (fun k => k.2.2) (fun g => (t, p, g))
    (fun k hk => by
      obtain ⟨h1, h2⟩ := keySel_eq hk
      rw [← h1, ← h2])
    (fun k k' hk hk' hpr => by
      obtain ⟨h1, h2⟩ := keySel_eq hk
      obtain ⟨h1', h2'⟩ := keySel_eq hk'
      refine Prod.ext ?_ (Prod.ext ?_ ?_) <;> simp_all)
    rows
  rw [h]
  rfl

theorem pg_filter_perm (rows : List StatRow) (t p : String) :
    ((per_game rows).filter (fun g => tpKey g == (t, p))).Perm
      ((gamesFor rows t p).map (fun g => mkPerGame rows (t, p, g))) := by
  rw [pg_filter_eq_keys]
  have h2 : ((pgKeys rows).filter (fun k => (k.1, k.2.1) == (t, p))).Perm
      (((rows.map statKey).dedup).filter (fun k => (k.1, k.2.1) == (t, p))) :=
    (sortByLt_perm pgKeyLt _).filter _
  have h4 := h2.map (mkPerGame rows)
  rw [dedup_keys_filter] at h4
  rw [List.map_map] at h4
  exact h4

theorem meanInt_perm {l1 l2 : List Int} (h : l1.Perm l2) : meanInt l1 = meanInt l2 := by
  unfold meanInt
  rw [h.sum_eq, h.length_eq]

theorem mkPerGame_stat (rows : List StatRow) (t p g : String) :
    (mkPerGame rows (t, p, g)).pts = gameSum rows t p g (fun r => r.pts) ∧
    (mkPerGame rows (t, p, g)).ast = gameSum rows t p g (fun r => r.ast) ∧
    (mkPerGame rows (t, p, g)).reb = gameSum rows t p g (fun r => r.reb) := by
  have hpred : ∀ r ∈ rows, (statKey r == (t, p, g)) =
      (r.defTeam == t && r.posGroup == p && r.gameId == g) := by
    intro r _
    show (r.defTeam == t && (r.posGroup == p && r.gameId == g)) = _
    exact (Bool.and_assoc _ _ _).symm
  have hfil : rows.filter (fun r => statKey r == (t, p, g)) =
      rows.filter (fun r => r.defTeam == t && r.posGroup == p && r.gameId == g) :=
    List.filter_congr hpred
  refine ⟨?_, ?_, ?_⟩ <;>
    (show ((groupRows rows (t, p, g)).map _).sum = _
     unfold groupRows gameSum
     rw [hfil])

theorem stat_maps_perm (rows : List StatRow) (k : String × String) :
    (((per_game rows).filter (fun g => tpKey g == k)).map (fun g => g.pts)).Perm
      ((gamesFor rows k.1 k.2).map (fun g => gameSum rows k.1 k.2 g (fun r => r.pts))) ∧
    (((per_game rows).filter (fun g => tpKey g == k)).map (fun g => g.ast)).Perm
      ((gamesFor rows k.1 k.2).map (fun g => gameSum rows k.1 k.2 g (fun r => r.ast))) ∧
    (((per_game rows).filter (fun g => tpKey g == k)).map (fun g => g.reb)).Perm
      ((gamesFor rows k.1 k.2).map (fun g => gameSum rows k.1 k.2 g (fun r => r.reb))) := by
  have hperm := pg_filter_perm rows k.1 k.2
  refine ⟨?_, ?_, ?_⟩
  · have h := hperm.map (fun g => g.pts)
    rw [List.map_map] at h
    have heq : ((gamesFor rows k.1 k.2).map
        ((fun g => g.pts) ∘ fun g => mkPerGame rows (k.1, k.2, g))) =
        (gamesFor rows k.1 k.2).map (fun g => gameSum rows k.1 k.2 g (fun r => r.pts)) :=
      List.map_congr_left (fun g _ => (mkPerGame_stat rows k.1 k.2 g).1)
    rw [heq] at h
    exact h
  · have h := hperm.map (fun g => g.ast)
    rw [List.map_map] at h
    have heq : ((gamesFor rows k.1 k.2).map
        ((fun g => g.ast) ∘ fun g => mkPerGame rows (k.1, k.2, g))) =
        (gamesFor rows k.1 k.2).map (fun g => gameSum rows k.1 k.2 g (fun r => r.ast)) :=
      List.map_congr_left (fun g _ => (mkPerGame_stat rows k.1 k.2 g).2.1)
    rw [heq] at h
    exact h
  · have h := hperm.map (fun g => g.reb)
    rw [List.map_map] at h
    have heq : ((gamesFor rows k.1 k.2).map
        ((fun g => g.reb) ∘ fun g => mkPerGame rows (k.1, k.2, g))) =
        (gamesFor rows k.1 k.2).map (fun g => gameSum rows k.1 k.2 g (fun r => r.reb)) :=
      List.map_congr_left (fun g _ => (mkPerGame_stat rows k.1 k.2 g).2.2)
    rw [heq] at h
    exact h

theorem specAllowedMean_eq_meanInt (rows : List StatRow) (t p : String) (f : StatRow → Int) :
    specAllowedMean rows t p f = meanInt ((gamesFor rows t p).map (fun g => gameSum rows t p g f)) := by
  unfold specAllowedMean meanInt
  rw [List.length_map]

theorem allowed_mem_value (rows : List StatRow) (a : AllowedRow) (ha : a ∈ allowed rows) :
    a.ptsAllowed = specAllowedMean rows a.defTeam a.posGroup (fun r => r.pts) ∧
    a.astAllowed = specAllowedMean rows a.defTeam a.posGroup (fun r => r.ast) ∧
    a.rebAllowed = specAllowedMean rows a.defTeam a.posGroup (fun r => r.reb) := by
  unfold allowed at ha
  rcases List.mem_map.mp ha with ⟨k, hk, rfl⟩
  obtain ⟨h1, h2, h3⟩ := stat_maps_perm rows k
  refine ⟨?_, ?_, ?_⟩
  · show meanInt _ = _
    rw [meanInt_perm h1, specAllowedMean_eq_meanInt]
    rfl
  · show meanInt _ = _
    rw [meanInt_perm h2, specAllowedMean_eq_meanInt]
    rfl
  · show meanInt _ = _
    rw [meanInt_perm h3, specAllowedMean_eq_meanInt]
    rfl

theorem mem_gamesFor (rows : List StatRow) (t p g : String) :
    g ∈ gamesFor rows t p ↔
      ∃ r ∈ rows, r.defTeam = t ∧ r.posGroup = p ∧ r.gameId = g := by
  unfold gamesFor rowsFor
  simp only [List.mem_dedup, List.mem_map, List.mem_filter, Bool.and_eq_true, beq_iff_eq]
  constructor
  · rintro ⟨r, ⟨hr, h1, h2⟩, h3⟩
    exact ⟨r, hr, h1, h2, h3⟩
  · rintro ⟨r, hr, h1, h2, h3⟩
    exact ⟨r, ⟨hr, h1, h2⟩, h3⟩

theorem per_game_key_exists (rows : List StatRow) (pg : PerGameRow)
    (h : pg ∈ per_game rows) :
    ∃ r ∈ rows, statKey r = (pg.defTeam, pg.posGroup, pg.gameId) := by
  unfold per_game at h
  rcases List.mem_map.mp h with ⟨k, hk, rfl⟩
  have hk3 : k ∈ rows.map statKey := List.mem_dedup.mp ((mem_sortByLt _ _ _).mp hk)
  rcases List.mem_map.mp hk3 with ⟨r, hr, hkey⟩
  exact ⟨r, hr, hkey⟩

theorem allowed_key_exists (rows : List StatRow) (a : AllowedRow) (h : a ∈ allowed rows) :
    ∃ r ∈ rows, r.defTeam = a.defTeam ∧ r.posGroup = a.posGroup := by
  unfold allowed at h
  rcases List.mem_map.mp h with ⟨k, hk, rfl⟩
  have hk2 : k ∈ (per_game rows).map tpKey :=
    List.mem_dedup.mp ((mem_sortByLt _ _ _).mp hk)
  rcases List.mem_map.mp hk2 with ⟨pg, hpg, hkey⟩
  rcases per_game_key_exists rows pg hpg with ⟨r, hr, hstat⟩
  have hd : r.defTeam = pg.defTeam := congrArg (fun x => x.1) hstat
  have hp : r.posGroup = pg.posGroup := congrArg (fun x => x.2.1) hstat
  refine ⟨r, hr, ?_, ?_⟩
  · rw [hd, ← hkey]
    rfl
  · rw [hp, ← hkey]
    rfl

theorem gamesFor_length_pos (rows : List StatRow) (a : AllowedRow) (h : a ∈ allowed rows) :
    0 < (gamesFor rows a.defTeam a.posGroup).length := by
  rcases allowed_key_exists rows a h with ⟨r, hr, h1, h2⟩
  have hm : r.gameId ∈ gamesFor rows a.defTeam a.posGroup :=
    (mem_gamesFor rows a.defTeam a.posGroup r.gameId).mpr ⟨r, hr, h1, h2, rfl⟩
  exact List.length_pos_of_mem hm

theorem rankify_team_mem (g : String) (l : List AllowedEntry) (r : RankedRow)
    (hr : r ∈ rankify g l) : ∃ e ∈ l, e.team = r.team ∧ e.value = r.value := by
  unfold rankify at hr
  rcases List.mem_map.mp hr with ⟨pe, hpe, rfl⟩
  refine ⟨pe.2, ?_, rfl, rfl⟩
  have hsnd : pe.2 ∈ l.enum.map Prod.snd := List.mem_map_of_mem Prod.snd hpe
  rwa [List.enum_map_snd] at hsnd

theorem top_bottom_team_mem (df : List AllowedEntry) (r : RankedRow)
    (hr : r ∈ top_bottom_10 df) : ∃ e ∈ df, e.team = r.team ∧ e.value = r.value := by
  unfold top_bottom_10 at hr
  rcases List.mem_append.mp hr with h | h
  · rcases rankify_team_mem _ _ _ h with ⟨e, he, h1, h2⟩
    refine ⟨e, ?_, h1, h2⟩
    have h3 : e ∈ sortEntriesDesc df := List.mem_of_mem_take he
    have h4 : e ∈ sortEntriesAsc df := List.mem_reverse.mp h3
    exact (mem_sortByLt _ _ _).mp h4
  · rcases rankify_team_mem _ _ _ h with ⟨e, he, h1, h2⟩
    refine ⟨e, ?_, h1, h2⟩
    have h3 : e ∈ lastN 10 (sortEntriesDesc df) := (mem_sortByLt _ _ _).mp he
    have h4 : e ∈ sortEntriesDesc df := (lastN_sublist _ _).subset h3
    have h5 : e ∈ sortEntriesAsc df := List.mem_reverse.mp h4
    exact (mem_sortByLt _ _ _).mp h5

theorem build_rank_team_excl (rows : List StatRow) (t p : String) (stat : Stat)
    (habs : ¬ ∃ r ∈ rows, r.defTeam = t ∧ r.posGroup = p)
    (row : RankedRow) (hrow : row ∈ build_rank (allowed rows) p stat) : row.team ≠ t := by
  unfold build_rank at hrow
  rcases top_bottom_team_mem _ _ hrow with ⟨e, he, h1, _⟩
  rcases List.mem_map.mp he with ⟨a, ha, rfl⟩
  have hap : a ∈ allowed rows := (List.mem_filter.mp ha).1
  have hpos : a.posGroup = p := beq_iff_eq.mp (List.mem_filter.mp ha).2
  intro hteam
  rcases allowed_key_exists rows a hap with ⟨r, hr, hd, hpg⟩
  exact habs ⟨r, hr, by rw [hd]; rw [show a.defTeam = _ from h1, hteam], by rw [hpg, hpos]⟩

theorem build_rank_empty (al : List AllowedRow) (p : String) (stat : Stat)
    (h : al.filter (fun a => a.posGroup == p) = []) : build_rank al p stat = [] := by
  unfold build_rank
  rw [h]
  rfl

/-- C1: for every reconciled row set the Aggregator is the two-phase
reduction the spec describes. -/
theorem C1_aggregator_two_phase :
    (∀ (rows : List StatRow) (a : AllowedRow), a ∈ allowed rows →
      a.ptsAllowed = specAllowedMean rows a.defTeam a.posGroup (fun r => r.pts) ∧
      a.astAllowed = specAllowedMean rows a.defTeam a.posGroup (fun r => r.ast) ∧
      a.rebAllowed = specAllowedMean rows a.defTeam a.posGroup (fun r => r.reb)) ∧
    allowed [⟨"BOS", "G", "001", 10, 1, 2⟩, ⟨"BOS", "G", "001", 20, 3, 4⟩] =
      [⟨"BOS", "G", 30, 4, 6⟩] ∧
    (allowed [⟨"BOS", "G", "001", 30, 0, 0⟩, ⟨"BOS", "G", "002", 50, 0, 0⟩]).map
      (fun a => a.ptsAllowed) = [40] := by
  refine ⟨allowed_mem_value, ?_, ?_⟩
  · have h1 : tpKeys (per_game [⟨"BOS", "G", "001", 10, 1, 2⟩, ⟨"BOS", "G", "001", 20, 3, 4⟩]) =
        [("BOS", "G")] := by decide
    have h2 : (per_game [⟨"BOS", "G", "001", 10, 1, 2⟩, ⟨"BOS", "G", "001", 20, 3, 4⟩]).filter
        (fun g => tpKey g == ("BOS", "G")) = [⟨"BOS", "G", "001", 30, 4, 6⟩] := by decide
    simp only [allowed, h1, List.map_cons, List.map_nil, mkAllowed, h2]
    norm_num [meanInt]
  · have h1 : tpKeys (per_game [⟨"BOS", "G", "001", 30, 0, 0⟩, ⟨"BOS", "G", "002", 50, 0, 0⟩]) =
        [("BOS", "G")] := by decide
    have h2 : (per_game [⟨"BOS", "G", "001", 30, 0, 0⟩, ⟨"BOS", "G", "002", 50, 0, 0⟩]).filter
        (fun g => tpKey g == ("BOS", "G")) =
        [⟨"BOS", "G", "001", 30, 0, 0⟩, ⟨"BOS", "G", "002", 50, 0, 0⟩] := by decide
    simp only [allowed, h1, List.map_cons, List.map_nil, mkAllowed, h2]
    norm_num [meanInt]

/-- C1, witness: the refinement applied at the two-player single-game
example. -/
theorem C1_witness :
    specAllowedMean [⟨"BOS", "G", "001", 10, 1, 2⟩, ⟨"BOS", "G", "001", 20, 3, 4⟩]
      "BOS" "G" (fun r => r.pts) = 30 := by
  have h := C1_aggregator_two_phase
  have hmem : (⟨"BOS", "G", 30, 4, 6⟩ : AllowedRow) ∈
      allowed [⟨"BOS", "G", "001", 10, 1, 2⟩, ⟨"BOS", "G", "001", 20, 3, 4⟩] := by
    rw [h.2.1]
    exact List.mem_singleton.mpr rfl
  exact ((h.1 _ _ hmem).1).symm

/-- C9: the phase-2 divisor for a pair counts exactly the distinct games
with at least one surviving row for that pair. -/
theorem C9_divisor_present_games :
    (∀ (rows : List StatRow) (t p : String), (gamesFor rows t p).Nodup ∧
      (∀ g, g ∈ gamesFor rows t p ↔
        ∃ r ∈ rows, r.defTeam = t ∧ r.posGroup = p ∧ r.gameId = g)) ∧
    (∀ (rows : List StatRow) (t p : String),
      ((per_game rows).filter (fun g => tpKey g == (t, p))).length =
        (gamesFor rows t p).length) ∧
    ((gamesFor [⟨"BOS", "G", "001", 30, 0, 0⟩, ⟨"BOS", "G", "002", 50, 0, 0⟩,
        ⟨"BOS", "F", "003", 7, 0, 0⟩] "BOS" "G").length = 2 ∧
      (allowed [⟨"BOS", "G", "001", 30, 0, 0⟩, ⟨"BOS", "G", "002", 50, 0, 0⟩,
        ⟨"BOS", "F", "003", 7, 0, 0⟩]).map (fun a => a.ptsAllowed) = [7, 40] ∧
      (40 : ℚ) ≠ 80 / 3) := by
  refine ⟨fun rows t p => ⟨List.nodup_dedup _, fun g => mem_gamesFor rows t p g⟩,
    ?_, by decide, ?_, by norm_num⟩
  · intro rows t p
    rw [(pg_filter_perm rows t p).length_eq, List.length_map]
  · have h1 : tpKeys (per_game [⟨"BOS", "G", "001", 30, 0, 0⟩, ⟨"BOS", "G", "002", 50, 0, 0⟩,
        ⟨"BOS", "F", "003", 7, 0, 0⟩]) = [("BOS", "F"), ("BOS", "G")] := by decide
    have h2 : (per_game [⟨"BOS", "G", "001", 30, 0, 0⟩, ⟨"BOS", "G", "002", 50, 0, 0⟩,
        ⟨"BOS", "F", "003", 7, 0, 0⟩]).filter (fun g => tpKey g == ("BOS", "F")) =
        [⟨"BOS", "F", "003", 7, 0, 0⟩] := by decide
    have h3 : (per_game [⟨"BOS", "G", "001", 30, 0, 0⟩, ⟨"BOS", "G", "002", 50, 0, 0⟩,
        ⟨"BOS", "F", "003", 7, 0, 0⟩]).filter (fun g => tpKey g == ("BOS", "G")) =
        [⟨"BOS", "G", "001", 30, 0, 0⟩, ⟨"BOS", "G", "002", 50, 0, 0⟩] := by decide
    simp only [allowed, h1, List.map_cons, List.map_nil, mkAllowed, h2, h3]
    norm_num [meanInt]

/-- C9, witness: the membership characterisation instantiated at the
three-game example. -/
theorem C9_witness :
    "001" ∈ gamesFor [⟨"BOS", "G", "001", 30, 0, 0⟩, ⟨"BOS", "G", "002", 50, 0, 0⟩,
      ⟨"BOS", "F", "003", 7, 0, 0⟩] "BOS" "G" ∧
    ¬ "003" ∈ gamesFor [⟨"BOS", "G", "001", 30, 0, 0⟩, ⟨"BOS", "G", "002", 50, 0, 0⟩,
      ⟨"BOS", "F", "003", 7, 0, 0⟩] "BOS" "G" := by
  have h := C9_divisor_present_games
  constructor
  · exact ((h.1 _ "BOS" "G").2 "001").mpr ⟨⟨"BOS", "G", "001", 30, 0, 0⟩, by decide, rfl, rfl, rfl⟩
  · intro hmem
    rcases ((h.1 _ "BOS" "G").2 "003").mp hmem with ⟨r, hr, h1, h2, h3⟩
    simp only [List.mem_cons, List.not_mem_nil, or_false] at hr
    rcases hr with h4 | h4 | h4
    · subst h4; exact absurd h3 (by decide)
    · subst h4; exact absurd h3 (by decide)
    · subst h4; exact absurd h2 (by decide)

/-- C7: pairs absent from the reconciled rows have no AllowedRate entry and
never appear in a ranking; an empty position slice yields an empty table;
every phase-1 group that exists has at least one row, and every phase-2
divisor is positive. -/
theorem C7_absent_pairs_empty_tables :
    (∀ (rows : List StatRow) (pg : PerGameRow), pg ∈ per_game rows →
      ∃ r ∈ rows, statKey r = (pg.defTeam, pg.posGroup, pg.gameId)) ∧
    (∀ (rows : List StatRow) (a : AllowedRow), a ∈ allowed rows →
      0 < (gamesFor rows a.defTeam a.posGroup).length) ∧
    (∀ (rows : List StatRow) (t p : String),
      (¬ ∃ r ∈ rows, r.defTeam = t ∧ r.posGroup = p) →
        (∀ a ∈ allowed rows, ¬(a.defTeam = t ∧ a.posGroup = p)) ∧
        (∀ stat : Stat, ∀ row ∈ build_rank (allowed rows) p stat, row.team ≠ t)) ∧
    (∀ (al : List AllowedRow) (p : String) (stat : Stat),
      al.filter (fun a => a.posGroup == p) = [] → build_rank al p stat = []) ∧
    top_bottom_10 [] = [] := by
  refine ⟨per_game_key_exists, gamesFor_length_pos, ?_, build_rank_empty, rfl⟩
  intro rows t p habs
  constructor
  · intro a ha ⟨h1, h2⟩
    rcases allowed_key_exists rows a ha with ⟨r, hr, hd, hp⟩
    exact habs ⟨r, hr, by rw [hd, h1], by rw [hp, h2]⟩
  · intro stat row hrow
    exact build_rank_team_excl rows t p stat habs row hrow

/-- C7, witness: a pair absent from a concrete row set is excluded from the
AllowedRate table and from the rankings; the empty position slice gives the
empty table. -/
theorem C7_witness :
    (∀ a ∈ allowed [⟨"BOS", "G", "001", 10, 0, 0⟩],
      ¬(a.defTeam = "LAL" ∧ a.posGroup = "G")) ∧
    build_rank (allowed [⟨"BOS", "G", "001", 10, 0, 0⟩]) "F" Stat.pts = [] := by
  have h := C7_absent_pairs_empty_tables
  constructor
  · exact (h.2.2.1 [⟨"BOS", "G", "001", 10, 0, 0⟩] "LAL" "G" (by decide)).1
  · exact h.2.2.2.1 _ "F" Stat.pts (by decide)

/-! ## Claim C5: the log reconciler -/

theorem mem_reconcile_iff (plogs : List PlayerLogRow) (bio : List BioRow)
    (tmap : String → Option (Finset String)) (m : MergedRow) :
    m ∈ reconcile plogs bio tmap ↔
      ∃ r ∈ plogs, in_last_n tmap r = true ∧
        ∃ b ∈ bio, b.playerId = r.playerId ∧
          m = ⟨r, defTeamOf r, some (normalize_position (some b.rawPos))⟩ ∧
          normalize_position (some b.rawPos) ∈ (["G", "F", "C"] : List String) := by
  unfold reconcile
  constructor
  · intro hm
    have h1 := List.mem_filter.mp hm
    have h2 := List.mem_filter.mp h1.1
    rcases List.mem_flatMap.mp h2.1 with ⟨r, hr, hmr⟩
    have hrp := List.mem_filter.mp hr
    unfold leftMergeBio at hmr
    by_cases hms : (bio.filter (fun b => b.playerId == r.playerId)).isEmpty = true
    · rw [if_pos hms] at hmr
      have hm1 : m = ⟨r, defTeamOf r, none⟩ := List.mem_singleton.mp hmr
      rw [hm1] at h2
      exact absurd h2.2 (by simp)
    · rw [if_neg hms] at hmr
      rcases List.mem_map.mp hmr with ⟨b, hb, hmb⟩
      have hbf := List.mem_filter.mp hb
      refine ⟨r, hrp.1, hrp.2, b, hbf.1, beq_iff_eq.mp hbf.2, hmb.symm, ?_⟩
      have hok := h1.2
      rw [← hmb] at hok
      simp only [posGroupOk] at hok
      simp only [Bool.or_eq_true, beq_iff_eq] at hok
      have hok2 := or_assoc.mp hok
      simpa using hok2
  · rintro ⟨r, hr, hin, b, hb, hpid, rfl, hmem⟩
    refine List.mem_filter.mpr ⟨List.mem_filter.mpr ⟨?_, rfl⟩, ?_⟩
    · refine List.mem_flatMap.mpr ⟨r, List.mem_filter.mpr ⟨hr, hin⟩, ?_⟩
      unfold leftMergeBio
      have hbmem : b ∈ bio.filter (fun x => x.playerId == r.playerId) :=
        List.mem_filter.mpr ⟨hb, beq_iff_eq.mpr hpid⟩
      have hne : ¬ (bio.filter (fun x => x.playerId == r.playerId)).isEmpty = true := by
        intro he
        rw [List.isEmpty_iff] at he
        rw [he] at hbmem
        exact absurd hbmem (List.not_mem_nil b)
      rw [if_neg hne]
      exact List.mem_map.mpr ⟨b, hbmem, rfl⟩
    · simp only [posGroupOk, Bool.or_eq_true, beq_iff_eq]
      exact or_assoc.mpr (by simpa using hmem)

/-- C5: a player row survives the reconciler exactly when its defending
team's window contains the row's game and some bio row for the player
normalises to G, F or C; surviving rows carry a position taken from an
actual bio row (no synthetic default). -/
theorem C5_reconciler_membership :
    (∀ (plogs : List PlayerLogRow) (bio : List BioRow)
        (tmap : String → Option (Finset String)) (r : PlayerLogRow), r ∈ plogs →
      ((∃ m ∈ reconcile plogs bio tmap, m.src = r) ↔
        ((∃ w, tmap (defTeamOf r) = some w ∧ r.gameId ∈ w) ∧
          ∃ b ∈ bio, b.playerId = r.playerId ∧
            normalize_position (some b.rawPos) ∈ (["G", "F", "C"] : List String)))) ∧
    (∀ (plogs : List PlayerLogRow) (bio : List BioRow)
        (tmap : String → Option (Finset String)) (m : MergedRow),
      m ∈ reconcile plogs bio tmap →
        ∃ b ∈ bio, b.playerId = m.src.playerId ∧
          m.posGroup = some (normalize_position (some b.rawPos))) := by
  constructor
  · intro plogs bio tmap r hr
    constructor
    · rintro ⟨m, hm, hsrc⟩
      rcases (mem_reconcile_iff plogs bio tmap m).mp hm with
        ⟨r', hr', hin, b, hb, hpid, rfl, hmem⟩
      have hrr : r' = r := hsrc
      subst hrr
      refine ⟨?_, b, hb, hpid, hmem⟩
      unfold in_last_n at hin
      cases htm : tmap (defTeamOf r') with
      | none => rw [htm] at hin; exact absurd hin (by simp)
      | some w =>
        rw [htm] at hin
        exact ⟨w, rfl, of_decide_eq_true hin⟩
    · rintro ⟨⟨w, hw, hgw⟩, b, hb, hpid, hmem⟩
      refine ⟨⟨r, defTeamOf r, some (normalize_position (some b.rawPos))⟩, ?_, rfl⟩
      refine (mem_reconcile_iff plogs bio tmap _).mpr ⟨r, hr, ?_, b, hb, hpid, rfl, hmem⟩
      unfold in_last_n
      rw [hw]
      exact decide_eq_true hgw
  · intro plogs bio tmap m hm
    rcases (mem_reconcile_iff plogs bio tmap m).mp hm with
      ⟨r, _, _, b, hb, hpid, rfl, _⟩
    exact ⟨b, hb, hpid, rfl⟩

/-- C5, witness: a concrete surviving row (window hit, bio match, guard
position) and the survival conditions it satisfies. -/
theorem C5_witness :
    ∃ m ∈ reconcile [⟨"001", "LAL vs. BOS", 7, 10, 1, 2⟩] [⟨7, "Player Seven", "Guard"⟩]
      (fun a => if a == "BOS" then some {"001"} else none),
      m.src = ⟨"001", "LAL vs. BOS", 7, 10, 1, 2⟩ := by
  refine (C5_reconciler_membership.1 _ _ _ _ (by decide)).mpr ⟨⟨{"001"}, rfl, by decide⟩,
    ⟨7, "Player Seven", "Guard"⟩, by decide, rfl, by decide⟩

/-! ## Claim C4: the window selector -/

theorem teamKeyLt_false_iff (a b : TeamLogRow) :
    teamKeyLt a b = false ↔
      (b.teamId < a.teamId ∨ (a.teamId = b.teamId ∧ b.date ≤ a.date)) := by
  unfold teamKeyLt
  simp only [Bool.or_eq_false_iff, Bool.and_eq_false_iff, decide_eq_false_iff_not,
    beq_eq_false_iff_ne, ne_eq, not_lt]
  constructor
  · rintro ⟨h1, h2 | h2⟩
    · omega
    · omega
  · intro h
    omega

theorem teamKeyLt_asymm (a b : TeamLogRow) (h : teamKeyLt a b = true) :
    teamKeyLt b a = false := by
  rw [teamKeyLt_false_iff]
  unfold teamKeyLt at h
  simp only [Bool.or_eq_true, Bool.and_eq_true, decide_eq_true_eq, beq_iff_eq] at h
  omega

theorem teamKeyLt_negtrans (a b c : TeamLogRow) (h1 : teamKeyLt b a = false)
    (h2 : teamKeyLt c b = false) : teamKeyLt c a = false := by
  rw [teamKeyLt_false_iff] at h1 h2 ⊢
  omega

theorem sortTeamLogs_pairwise (logs : List TeamLogRow) :
    (sortTeamLogs logs).Pairwise (fun a b => teamKeyLt b a = false) :=
  pairwise_sortByLt teamKeyLt teamKeyLt_asymm teamKeyLt_negtrans logs

theorem flatMap_filter_nil {κ α : Type} (F : κ → List α) (P : α → Bool) :
    ∀ tids : List κ, (∀ tid ∈ tids, (F tid).filter P = []) →
      (tids.flatMap F).filter P = []
  | [], _ => rfl
  | tid :: tids, h => by
    rw [List.flatMap_cons, List.filter_append, h tid (by simp), List.nil_append]
    exact flatMap_filter_nil F P tids (fun td hd => h td (by simp [hd]))

theorem flatMap_filter_single {κ α : Type} (F : κ → List α) (P : α → Bool) (t0 : κ) :
    ∀ tids : List κ, tids.Nodup → t0 ∈ tids →
      (∀ tid ∈ tids, tid ≠ t0 → (F tid).filter P = []) →
      (F t0).filter P = F t0 →
      (tids.flatMap F).filter P = F t0
  | [], _, h, _, _ => absurd h (List.not_mem_nil t0)
  | tid :: tids, hnd, hmem, hz, hkeep => by
    rw [List.flatMap_cons, List.filter_append]
    rcases List.mem_cons.mp hmem with rfl | hmem'
    · rw [hkeep, flatMap_filter_nil F P tids
        (fun td hd => hz td (by simp [hd])
          (fun e => (List.nodup_cons.mp hnd).1 (e ▸ hd))), List.append_nil]
    · have hne : tid ≠ t0 := by
        rintro rfl
        exact (List.nodup_cons.mp hnd).1 hmem'
      rw [hz tid (by simp) hne, List.nil_append]
      exact flatMap_filter_single F P t0 tids (List.nodup_cons.mp hnd).2 hmem'
        (fun td hd => hz td (by simp [hd])) hkeep

theorem mem_team_last (logs : List TeamLogRow) (n : Nat) {x : TeamLogRow}
    (hx : x ∈ team_last logs n) : x ∈ logs := by
  rcases List.mem_flatMap.mp hx with ⟨tid, _, hx2⟩
  have hx3 := (lastN_sublist _ _).subset hx2
  exact (sortByLt_perm teamKeyLt logs).mem_iff.mp (List.mem_filter.mp hx3).1


theorem sorted_window_dates (S : List TeamLogRow) (n : Nat)
    (hpw : S.Pairwise (fun a b => teamKeyLt b a = false))
    (htid : ∀ x ∈ S, ∀ y ∈ S, x.teamId = y.teamId)
    (r r' : TeamLogRow) (hr : r ∈ lastN n S) (hr' : r' ∈ S)
    (hr'n : r' ∉ lastN n S) : r'.date ≤ r.date := by
  have hsplit : S = S.take (S.length - n) ++ lastN n S :=
    (List.take_append_drop (S.length - n) S).symm
  have hr'take : r' ∈ S.take (S.length - n) := by
    rcases List.mem_append.mp (hsplit ▸ hr') with h | h
    · exact h
    · exact absurd h hr'n
  have hpw2 : (S.take (S.length - n) ++ lastN n S).Pairwise
      (fun a b => teamKeyLt b a = false) := by
    rw [← hsplit]
    exact hpw
  have hrel := (List.pairwise_append.mp hpw2).2.2 r' hr'take r hr
  rw [teamKeyLt_false_iff] at hrel
  have hst := htid r ((lastN_sublist n S).subset hr) r' hr'
  rcases hrel with h | h
  · omega
  · exact h.2

/-- C4: the window selector maps each present team to the set of its
chronologically latest game ids: size `min n (games played)`, exactly `n`
once the team has at least `n` rows, the full game set when it has fewer,
every window game at least as late as every non-window game of the team, and
no entry at all for an absent abbreviation. -/
theorem C4_window_selector (logs : List TeamLogRow) (n : Nat) (abbr : String)
    (hn : 0 < n) (hnd : logs.Nodup)
    (hcons : ∀ r ∈ logs, ∀ r' ∈ logs, (r.teamId = r'.teamId ↔ r.abbr = r'.abbr))
    (hgid : ∀ r ∈ logs, ∀ r' ∈ logs, r.teamId = r'.teamId → r.gameId = r'.gameId → r = r') :
    (logs.filter (fun r => r.abbr == abbr) = [] → team_games_map logs n abbr = none) ∧
    (∀ r0 ∈ logs, r0.abbr = abbr →
      ∃ w, team_games_map logs n abbr = some w ∧
        w.card = min n (logs.filter (fun r => r.abbr == abbr)).length ∧
        (n ≤ (logs.filter (fun r => r.abbr == abbr)).length → w.card = n) ∧
        ((logs.filter (fun r => r.abbr == abbr)).length ≤ n →
          w = ((logs.filter (fun r => r.abbr == abbr)).map (fun r => r.gameId)).toFinset) ∧
        (∀ g ∈ w, ∃ r ∈ logs, r.abbr = abbr ∧ r.gameId = g) ∧
        (∀ r ∈ logs, ∀ r' ∈ logs, r.abbr = abbr → r'.abbr = abbr →
          r.gameId ∈ w → r'.gameId ∉ w → r'.date ≤ r.date)) := by
  constructor
  · intro hempty
    have hblock : (team_last logs n).filter (fun r => r.abbr == abbr) = [] := by
      rw [List.filter_eq_nil_iff]
      intro x hx hxa
      have h2 : x ∈ logs.filter (fun r => r.abbr == abbr) :=
        List.mem_filter.mpr ⟨mem_team_last logs n hx, hxa⟩
      rw [hempty] at h2
      exact absurd h2 (List.not_mem_nil x)
    unfold team_games_map
    rw [hblock]
    rfl
  · intro r0 hr0 hr0a
    have hfe : ∀ r ∈ logs, (r.abbr == abbr) = (r.teamId == r0.teamId) := by
      intro r hr
      have hiff : r.abbr = abbr ↔ r.teamId = r0.teamId := by
        rw [show abbr = r0.abbr from hr0a.symm]
        exact (hcons r hr r0 hr0).symm
      by_cases h : r.abbr = abbr
      · rw [beq_iff_eq.mpr h, beq_iff_eq.mpr (hiff.mp h)]
      · rw [beq_eq_false_iff_ne.mpr h, beq_eq_false_iff_ne.mpr (fun hh => h (hiff.mpr hh))]
    have hAfilter : logs.filter (fun r => r.abbr == abbr) =
        logs.filter (fun r => r.teamId == r0.teamId) := List.filter_congr hfe
    have hS0perm : ((sortTeamLogs logs).filter (fun r => r.teamId == r0.teamId)).Perm
        (logs.filter (fun r => r.teamId == r0.teamId)) :=
      (sortByLt_perm teamKeyLt logs).filter _
    have hSmem : ∀ {x : TeamLogRow},
        x ∈ (sortTeamLogs logs).filter (fun r => r.teamId == r0.teamId) →
          x ∈ logs ∧ x.teamId = r0.teamId ∧ x.abbr = abbr := by
      intro x hx
      have hx2 := List.mem_filter.mp hx
      have hx3 : x ∈ logs := (sortByLt_perm teamKeyLt logs).mem_iff.mp hx2.1
      have hx4 : x.teamId = r0.teamId := beq_iff_eq.mp hx2.2
      exact ⟨hx3, hx4, by rw [(hcons x hx3 r0 hr0).mp hx4, hr0a]⟩
    have hblock : (team_last logs n).filter (fun r => r.abbr == abbr) =
        lastN n ((sortTeamLogs logs).filter (fun r => r.teamId == r0.teamId)) := by
      unfold team_last
      apply flatMap_filter_single _ _ r0.teamId
      · exact List.nodup_dedup _
      · exact List.mem_dedup.mpr (List.mem_map_of_mem _ hr0)
      · intro tid htid hne
        rw [List.filter_eq_nil_iff]
        intro x hx hxa
        have hx1 := (lastN_sublist _ _).subset hx
        have hx2 := List.mem_filter.mp hx1
        have hx3 : x ∈ logs := (sortByLt_perm teamKeyLt logs).mem_iff.mp hx2.1
        have hxtid : x.teamId = tid := beq_iff_eq.mp hx2.2
        have hxr0 : x.teamId = r0.teamId :=
          (hcons x hx3 r0 hr0).mpr (by rw [beq_iff_eq.mp hxa, hr0a])
        exact hne (by rw [← hxtid, hxr0])
      · rw [List.filter_eq_self]
        intro x hx
        exact beq_iff_eq.mpr (hSmem ((lastN_sublist _ _).subset hx)).2.2
    have hr0S : r0 ∈ logs.filter (fun r => r.teamId == r0.teamId) :=
      List.mem_filter.mpr ⟨hr0, beq_iff_eq.mpr rfl⟩
    have hS0len : ((sortTeamLogs logs).filter (fun r => r.teamId == r0.teamId)).length =
        (logs.filter (fun r => r.abbr == abbr)).length := by
      rw [hAfilter]
      exact hS0perm.length_eq
    have hS0pos : 0 < ((sortTeamLogs logs).filter (fun r => r.teamId == r0.teamId)).length := by
      rw [hS0perm.length_eq]
      exact List.length_pos_of_mem hr0S
    have hlastlen := lastN_length n ((sortTeamLogs logs).filter (fun r => r.teamId == r0.teamId))
    have hlastpos : 0 < (lastN n ((sortTeamLogs logs).filter
        (fun r => r.teamId == r0.teamId))).length := by
      rw [hlastlen]
      omega
    have hlastne : ¬ ((team_last logs n).filter (fun r => r.abbr == abbr)).isEmpty = true := by
      rw [hblock, List.isEmpty_iff]
      intro he
      rw [he] at hlastpos
      simp at hlastpos
    have hmap : team_games_map logs n abbr = some (((lastN n ((sortTeamLogs logs).filter
        (fun r => r.teamId == r0.teamId))).map (fun r => r.gameId)).toFinset) := by
      unfold team_games_map
      rw [if_neg hlastne, hblock]
    have hS0nodup : ((sortTeamLogs logs).filter (fun r => r.teamId == r0.teamId)).Nodup :=
      ((sortByLt_perm teamKeyLt logs).nodup_iff.mpr hnd).filter _
    have hS0inj : ∀ x ∈ (sortTeamLogs logs).filter (fun r => r.teamId == r0.teamId),
        ∀ y ∈ (sortTeamLogs logs).filter (fun r => r.teamId == r0.teamId),
          x.gameId = y.gameId → x = y := by
      intro x hx y hy hxy
      obtain ⟨hxl, hxt, _⟩ := hSmem hx
      obtain ⟨hyl, hyt, _⟩ := hSmem hy
      exact hgid x hxl y hyl (by rw [hxt, hyt]) hxy
    have hmapnodupS0 : (((sortTeamLogs logs).filter
        (fun r => r.teamId == r0.teamId)).map (fun r => r.gameId)).Nodup :=
      (List.nodup_map_iff_inj_on hS0nodup).mpr hS0inj
    have hmapnodup : ((lastN n ((sortTeamLogs logs).filter
        (fun r => r.teamId == r0.teamId))).map (fun r => r.gameId)).Nodup :=
      List.Nodup.sublist ((lastN_sublist _ _).map _) hmapnodupS0
    refine ⟨_, hmap, ?_, ?_, ?_, ?_, ?_⟩
    · rw [List.toFinset_card_of_nodup hmapnodup, List.length_map, hlastlen, hS0len]
    · intro hle
      rw [List.toFinset_card_of_nodup hmapnodup, List.length_map, hlastlen, hS0len]
      omega
    · intro hle
      rw [lastN_eq_self n _ (by rw [hS0len]; exact hle)]
      apply List.toFinset_eq_of_perm
      apply List.Perm.map
      rw [hAfilter]
      exact hS0perm
    · intro g hg
      rcases List.mem_map.mp (List.mem_toFinset.mp hg) with ⟨s, hs, hsg⟩
      obtain ⟨hsl, _, hsa⟩ := hSmem ((lastN_sublist _ _).subset hs)
      exact ⟨s, hsl, hsa, hsg⟩
    · intro r hr r' hr' hra hra' hrw hrw'
      have hrS : r ∈ (sortTeamLogs logs).filter (fun x => x.teamId == r0.teamId) := by
        apply hS0perm.mem_iff.mpr
        rw [← hAfilter]
        exact List.mem_filter.mpr ⟨hr, beq_iff_eq.mpr hra⟩
      have hrS' : r' ∈ (sortTeamLogs logs).filter (fun x => x.teamId == r0.teamId) := by
        apply hS0perm.mem_iff.mpr
        rw [← hAfilter]
        exact List.mem_filter.mpr ⟨hr', beq_iff_eq.mpr hra'⟩
      rcases List.mem_map.mp (List.mem_toFinset.mp hrw) with ⟨s, hs, hsg⟩
      have hsr : s = r := hS0inj s ((lastN_sublist _ _).subset hs) r hrS hsg
      subst hsr
      have hpw : ((sortTeamLogs logs).filter (fun x => x.teamId == r0.teamId)).Pairwise
          (fun a b => teamKeyLt b a = false) := (sortTeamLogs_pairwise logs).filter _
      refine sorted_window_dates _ n hpw ?_ s r' hs hrS' ?_
      · intro x hx y hy
        rw [(hSmem hx).2.1, (hSmem hy).2.1]
      · intro hmem
        exact hrw' (List.mem_toFinset.mpr (List.mem_map_of_mem _ hmem))

/-- C4, witness: a team with 4 logged games and window size 2 gets exactly
its two latest games; an unknown abbreviation gets no entry. -/
theorem C4_witness :
    (∃ w, team_games_map [⟨1, "AAA", "g1", 1⟩, ⟨1, "AAA", "g2", 2⟩, ⟨1, "AAA", "g3", 3⟩,
        ⟨1, "AAA", "g4", 4⟩, ⟨2, "BBB", "g5", 1⟩] 2 "AAA" = some w ∧ w.card = 2) ∧
    team_games_map [⟨1, "AAA", "g1", 1⟩, ⟨1, "AAA", "g2", 2⟩, ⟨1, "AAA", "g3", 3⟩,
        ⟨1, "AAA", "g4", 4⟩, ⟨2, "BBB", "g5", 1⟩] 2 "CCC" = none := by
  have h := C4_window_selector [⟨1, "AAA", "g1", 1⟩, ⟨1, "AAA", "g2", 2⟩,
    ⟨1, "AAA", "g3", 3⟩, ⟨1, "AAA", "g4", 4⟩, ⟨2, "BBB", "g5", 1⟩] 2 "AAA"
    (by decide) (by decide) (by decide) (by decide)
  have h2 := C4_window_selector [⟨1, "AAA", "g1", 1⟩, ⟨1, "AAA", "g2", 2⟩,
    ⟨1, "AAA", "g3", 3⟩, ⟨1, "AAA", "g4", 4⟩, ⟨2, "BBB", "g5", 1⟩] 2 "CCC"
    (by decide) (by decide) (by decide) (by decide)
  constructor
  · obtain ⟨w, hmap, _, hex, _, _, _⟩ := h.2 ⟨1, "AAA", "g1", 1⟩ (by decide) rfl
    exact ⟨w, hmap, hex (by decide)⟩
  · exact h2.1 (by decide)

/-! ## Claim C2: the ranker -/

theorem valLt_asymm (a b : AllowedEntry) (h : valLt a b = true) : valLt b a = false := by
  unfold valLt at h ⊢
  rw [decide_eq_true_eq] at h
  rw [decide_eq_false_iff_not]
  exact lt_asymm h

theorem valLt_negtrans (a b c : AllowedEntry) (h1 : valLt b a = false)
    (h2 : valLt c b = false) : valLt c a = false := by
  unfold valLt at h1 h2 ⊢
  rw [decide_eq_false_iff_not] at h1 h2
  rw [decide_eq_false_iff_not]
  intro hlt
  exact h2 (lt_of_lt_of_le hlt (not_lt.mp h1))

theorem valLt_false_le {a b : AllowedEntry} (h : valLt a b = false) : b.value ≤ a.value :=
  not_lt.mp (by rwa [valLt, decide_eq_false_iff_not] at h)

theorem sortEntriesAsc_pairwise (df : List AllowedEntry) :
    (sortEntriesAsc df).Pairwise (fun a b => valLt b a = false) :=
  pairwise_sortByLt valLt valLt_asymm valLt_negtrans df

theorem sortEntriesDesc_pairwise (df : List AllowedEntry) :
    (sortEntriesDesc df).Pairwise (fun a b => valLt a b = false) :=
  List.pairwise_reverse.mpr (sortEntriesAsc_pairwise df)

theorem sortEntriesDesc_perm (df : List AllowedEntry) : (sortEntriesDesc df).Perm df :=
  (List.reverse_perm _).trans (sortByLt_perm valLt df)

theorem sortEntriesDesc_length (df : List AllowedEntry) :
    (sortEntriesDesc df).length = df.length := (sortEntriesDesc_perm df).length_eq

theorem enumFrom_map_rank (s : Nat) :
    ∀ l : List AllowedEntry, (List.enumFrom s l).map (fun p => p.1 + 1) =
      List.range' (s + 1) l.length
  | [] => rfl
  | e :: l => by
    rw [List.enumFrom_cons, List.map_cons, List.length_cons, List.range'_succ,
      enumFrom_map_rank (s + 1) l]

theorem rankify_length (g : String) (l : List AllowedEntry) :
    (rankify g l).length = l.length := by
  simp [rankify]

theorem rankify_map_rank (g : String) (l : List AllowedEntry) :
    (rankify g l).map (fun r => r.rank) = List.range' 1 l.length := by
  unfold rankify
  rw [List.map_map]
  exact enumFrom_map_rank 0 l

theorem rankify_map_team (g : String) (l : List AllowedEntry) :
    (rankify g l).map (fun r => r.team) = l.map (fun e => e.team) := by
  unfold rankify
  rw [List.map_map]
  rw [show ((fun r : RankedRow => r.team) ∘ fun p : Nat × AllowedEntry =>
      (⟨p.1 + 1, g, p.2.team, p.2.value⟩ : RankedRow)) =
    ((fun e : AllowedEntry => e.team) ∘ Prod.snd) from rfl]
  rw [← List.map_map, List.enum_map_snd]

theorem rankify_map_value (g : String) (l : List AllowedEntry) :
    (rankify g l).map (fun r => r.value) = l.map (fun e => e.value) := by
  unfold rankify
  rw [List.map_map]
  rw [show ((fun r : RankedRow => r.value) ∘ fun p : Nat × AllowedEntry =>
      (⟨p.1 + 1, g, p.2.team, p.2.value⟩ : RankedRow)) =
    ((fun e : AllowedEntry => e.value) ∘ Prod.snd) from rfl]
  rw [← List.map_map, List.enum_map_snd]

theorem rankify_group (g : String) (l : List AllowedEntry) :
    ∀ r ∈ rankify g l, r.group = g := by
  intro r hr
  rcases List.mem_map.mp hr with ⟨p, _, rfl⟩
  rfl

theorem rankify_mem_of_mem (g : String) (l : List AllowedEntry) {e : AllowedEntry}
    (he : e ∈ l) : ∃ r ∈ rankify g l, r.team = e.team := by
  have h : e.team ∈ (rankify g l).map (fun r => r.team) := by
    rw [rankify_map_team]
    exact List.mem_map_of_mem _ he
  rcases List.mem_map.mp h with ⟨r, hr, hteam⟩
  exact ⟨r, hr, hteam⟩

theorem sorted_unique_by_value :
    ∀ l1 l2 : List AllowedEntry, l1.Perm l2 →
      l1.Pairwise (fun a b => a.value < b.value) →
      l2.Pairwise (fun a b => a.value < b.value) → l1 = l2
  | [], [], _, _, _ => rfl
  | [], _ :: _, hp, _, _ => absurd hp.length_eq (by simp)
  | _ :: _, [], hp, _, _ => absurd hp.length_eq (by simp)
  | a :: l1, b :: l2, hp, h1, h2 => by
    have hab : a = b := by
      by_contra hne
      have hbmem : b ∈ a :: l1 := hp.mem_iff.mpr (by simp)
      have hamem : a ∈ b :: l2 := hp.mem_iff.mp (by simp)
      rcases List.mem_cons.mp hbmem with h | h
      · exact hne h.symm
      · rcases List.mem_cons.mp hamem with h' | h'
        · exact hne h'
        · exact absurd (((List.pairwise_cons.mp h1).1 b h).trans
            ((List.pairwise_cons.mp h2).1 a h')) (lt_irrefl _)
    subst hab
    rw [sorted_unique_by_value l1 l2 hp.cons_inv
      (List.pairwise_cons.mp h1).2 (List.pairwise_cons.mp h2).2]

theorem strict_of_le_nodup (l : List AllowedEntry)
    (hs : l.Pairwise (fun a b => a.value ≤ b.value))
    (hnd : (l.map (fun e => e.value)).Nodup) :
    l.Pairwise (fun a b => a.value < b.value) :=
  ((List.pairwise_map.mp hnd).and hs).imp (fun h => lt_of_le_of_ne h.2 h.1)

/-- C2, counterexample: with exactly 10 teams and a single tied value the two
groups are not in reverse order of each other — the descending sort is the
reversed ascending argsort, so the tied teams T6, T7 appear as T7, T6 in the
top group but also as T7, T6 within the ascending bottom group. -/
theorem C2_counterexample :
    ((top_bottom_10 [⟨"T1", 10⟩, ⟨"T2", 9⟩, ⟨"T3", 8⟩, ⟨"T4", 7⟩, ⟨"T5", 6⟩,
      ⟨"T6", 5⟩, ⟨"T7", 5⟩, ⟨"T8", 3⟩, ⟨"T9", 2⟩, ⟨"T10", 1⟩]).drop 10).map
        (fun r => r.team) ≠
    (((top_bottom_10 [⟨"T1", 10⟩, ⟨"T2", 9⟩, ⟨"T3", 8⟩, ⟨"T4", 7⟩, ⟨"T5", 6⟩,
      ⟨"T6", 5⟩, ⟨"T7", 5⟩, ⟨"T8", 3⟩, ⟨"T9", 2⟩, ⟨"T10", 1⟩]).take 10).map
        (fun r => r.team)).reverse := by
  decide

/-- C2 (amended): the ranked table is the top block followed by the bottom
block, of total size `min 2K (2 · team count)` with K = 10; the top block is
the K highest values in descending order and the bottom block the K lowest in
ascending order, each independently rank-numbered from 1 within its group and
carrying its group label; with exactly 10 teams both groups contain all 10
teams and their value sequences are exact reverses of each other, and the
team sequences are exact reverses whenever the 10 values are pairwise
distinct (a tie lets the two groups order the tied teams identically instead);
with at most 10 teams every team appears in both groups — the overlap is
preserved, not deduplicated. -/
theorem C2_ranker_structure (df : List AllowedEntry) :
    top_bottom_10 df = topRows df ++ bottomRows df ∧
    (top_bottom_10 df).length = min 20 (2 * df.length) ∧
    (topRows df).length = min 10 df.length ∧
    (bottomRows df).length = min 10 df.length ∧
    (topRows df).map (fun r => r.rank) = List.range' 1 (min 10 df.length) ∧
    (bottomRows df).map (fun r => r.rank) = List.range' 1 (min 10 df.length) ∧
    (∀ r ∈ topRows df, r.group = "MOST ALLOWED") ∧
    (∀ r ∈ bottomRows df, r.group = "LEAST ALLOWED") ∧
    ((topRows df).map (fun r => r.value)).Pairwise (fun a b => b ≤ a) ∧
    ((bottomRows df).map (fun r => r.value)).Pairwise (fun a b => a ≤ b) ∧
    (∀ r ∈ topRows df, ∀ e ∈ (sortEntriesDesc df).drop 10, e.value ≤ r.value) ∧
    (∀ r ∈ bottomRows df, ∀ e ∈ (sortEntriesDesc df).take (df.length - 10),
      r.value ≤ e.value) ∧
    (df.length = 10 →
      ((topRows df).map (fun r => r.team)).Perm (df.map (fun e => e.team)) ∧
      ((bottomRows df).map (fun r => r.team)).Perm (df.map (fun e => e.team)) ∧
      (bottomRows df).map (fun r => r.value) =
        ((topRows df).map (fun r => r.value)).reverse ∧
      ((df.map (fun e => e.value)).Nodup →
        (bottomRows df).map (fun r => r.team) =
          ((topRows df).map (fun r => r.team)).reverse)) ∧
    (df.length ≤ 10 → ∀ e ∈ df,
      (∃ r ∈ topRows df, r.team = e.team) ∧ (∃ r ∈ bottomRows df, r.team = e.team)) := by
  have hdlen := sortEntriesDesc_length df
  have hdperm := sortEntriesDesc_perm df
  have hbotlistperm : (sortByLt valLt (lastN 10 (sortEntriesDesc df))).Perm
      (lastN 10 (sortEntriesDesc df)) := sortByLt_perm _ _
  have htoplen : (topRows df).length = min 10 df.length := by
    unfold topRows
    rw [rankify_length, List.length_take, hdlen]
  have hbotlen : (bottomRows df).length = min 10 df.length := by
    unfold bottomRows
    rw [rankify_length, hbotlistperm.length_eq, lastN_length, hdlen]
  refine ⟨rfl, ?_, htoplen, hbotlen, ?_, ?_, rankify_group _ _, rankify_group _ _,
    ?_, ?_, ?_, ?_, ?_, ?_⟩
  · show (topRows df ++ bottomRows df).length = _
    rw [List.length_append, htoplen, hbotlen]
    omega
  · unfold topRows
    rw [rankify_map_rank, List.length_take, hdlen]
  · unfold bottomRows
    rw [rankify_map_rank, hbotlistperm.length_eq, lastN_length, hdlen]
  · unfold topRows
    rw [rankify_map_value]
    exact List.pairwise_map.mpr
      (List.Pairwise.imp valLt_false_le (List.Pairwise.take (sortEntriesDesc_pairwise df)))
  · unfold bottomRows
    rw [rankify_map_value]
    exact List.pairwise_map.mpr (List.Pairwise.imp valLt_false_le
      (pairwise_sortByLt valLt valLt_asymm valLt_negtrans _))
  · intro r hr e he
    rcases rankify_team_mem _ _ _ hr with ⟨a, ha, _, hv⟩
    have hsplit : sortEntriesDesc df =
        (sortEntriesDesc df).take 10 ++ (sortEntriesDesc df).drop 10 :=
      (List.take_append_drop 10 _).symm
    have hpw : ((sortEntriesDesc df).take 10 ++ (sortEntriesDesc df).drop 10).Pairwise
        (fun a b => valLt a b = false) := by
      rw [← hsplit]
      exact sortEntriesDesc_pairwise df
    have hrel := (List.pairwise_append.mp hpw).2.2 a ha e he
    rw [← hv]
    exact valLt_false_le hrel
  · intro r hr e he
    rcases rankify_team_mem _ _ _ hr with ⟨b, hb, _, hv⟩
    have hbmem : b ∈ lastN 10 (sortEntriesDesc df) := (mem_sortByLt _ _ _).mp hb
    have hlastdrop : lastN 10 (sortEntriesDesc df) =
        (sortEntriesDesc df).drop (df.length - 10) := by
      rw [lastN, hdlen]
    have hsplit : sortEntriesDesc df = (sortEntriesDesc df).take (df.length - 10) ++
        (sortEntriesDesc df).drop (df.length - 10) := (List.take_append_drop _ _).symm
    have hpw : ((sortEntriesDesc df).take (df.length - 10) ++
        (sortEntriesDesc df).drop (df.length - 10)).Pairwise
        (fun a b => valLt a b = false) := by
      rw [← hsplit]
      exact sortEntriesDesc_pairwise df
    have hbdrop : b ∈ (sortEntriesDesc df).drop (df.length - 10) := by
      rw [← hlastdrop]
      exact hbmem
    have hrel := (List.pairwise_append.mp hpw).2.2 e he b hbdrop
    rw [← hv]
    exact valLt_false_le hrel
  · intro h10
    have htake : (sortEntriesDesc df).take 10 = sortEntriesDesc df :=
      List.take_of_length_le (by rw [hdlen, h10])
    have hlastall : lastN 10 (sortEntriesDesc df) = sortEntriesDesc df :=
      lastN_eq_self _ _ (by rw [hdlen, h10])
    have hrev : (sortEntriesDesc df).reverse = sortEntriesAsc df := by
      unfold sortEntriesDesc
      rw [List.reverse_reverse]
    refine ⟨?_, ?_, ?_, ?_⟩
    · unfold topRows
      rw [rankify_map_team, htake]
      exact hdperm.map _
    · unfold bottomRows
      rw [rankify_map_team, hlastall]
      exact ((sortByLt_perm valLt _).trans hdperm).map _
    · unfold topRows bottomRows
      rw [rankify_map_value, rankify_map_value, htake, hlastall, ← List.map_reverse, hrev]
      have hperm : ((sortByLt valLt (sortEntriesDesc df)).map (fun e => e.value)).Perm
          ((sortEntriesAsc df).map (fun e => e.value)) :=
        ((((sortByLt_perm valLt _).trans hdperm).trans
          (sortByLt_perm valLt df).symm).map _)
      have hs1 : ((sortByLt valLt (sortEntriesDesc df)).map (fun e => e.value)).Sorted
          (fun a b => a ≤ b) :=
        List.pairwise_map.mpr (List.Pairwise.imp valLt_false_le
          (pairwise_sortByLt valLt valLt_asymm valLt_negtrans _))
      have hs2 : ((sortEntriesAsc df).map (fun e => e.value)).Sorted (fun a b => a ≤ b) :=
        List.pairwise_map.mpr
          (List.Pairwise.imp valLt_false_le (sortEntriesAsc_pairwise df))
      exact List.eq_of_perm_of_sorted hperm hs1 hs2
    · intro hnd
      unfold topRows bottomRows
      rw [rankify_map_team, rankify_map_team, htake, hlastall, ← List.map_reverse, hrev]
      congr 1
      apply sorted_unique_by_value
      · exact (((sortByLt_perm valLt _).trans hdperm).trans (sortByLt_perm valLt df).symm)
      · apply strict_of_le_nodup
        · exact List.Pairwise.imp valLt_false_le
            (pairwise_sortByLt valLt valLt_asymm valLt_negtrans _)
        · exact ((((sortByLt_perm valLt _).trans hdperm).map _).nodup_iff).mpr hnd
      · apply strict_of_le_nodup
        · exact List.Pairwise.imp valLt_false_le (sortEntriesAsc_pairwise df)
        · exact (((sortByLt_perm valLt df).map _).nodup_iff).mpr hnd
  · intro hle e he
    constructor
    · apply rankify_mem_of_mem
      have htake : (sortEntriesDesc df).take 10 = sortEntriesDesc df :=
        List.take_of_length_le (by rw [hdlen]; exact hle)
      rw [htake]
      exact hdperm.mem_iff.mpr he
    · apply rankify_mem_of_mem
      have hlastall : lastN 10 (sortEntriesDesc df) = sortEntriesDesc df :=
        lastN_eq_self _ _ (by rw [hdlen]; exact hle)
      apply (mem_sortByLt _ _ _).mpr
      rw [hlastall]
      exact hdperm.mem_iff.mpr he

/-- C2, witness: with 10 teams of pairwise distinct values the bottom group's
team sequence is the exact reverse of the top group's, and with 2 teams each
team appears in both groups. -/
theorem C2_witness :
    ((bottomRows [⟨"T1", 10⟩, ⟨"T2", 9⟩, ⟨"T3", 8⟩, ⟨"T4", 7⟩, ⟨"T5", 6⟩,
      ⟨"T6", 5⟩, ⟨"T7", 4⟩, ⟨"T8", 3⟩, ⟨"T9", 2⟩, ⟨"T10", 1⟩]).map (fun r => r.team) =
    ((topRows [⟨"T1", 10⟩, ⟨"T2", 9⟩, ⟨"T3", 8⟩, ⟨"T4", 7⟩, ⟨"T5", 6⟩,
      ⟨"T6", 5⟩, ⟨"T7", 4⟩, ⟨"T8", 3⟩, ⟨"T9", 2⟩, ⟨"T10", 1⟩]).map
        (fun r => r.team)).reverse) ∧
    ((∃ r ∈ topRows [⟨"A", 2⟩, ⟨"B", 1⟩], r.team = "A") ∧
      ∃ r ∈ bottomRows [⟨"A", 2⟩, ⟨"B", 1⟩], r.team = "A") := by
  constructor
  · obtain ⟨-, -, -, -, -, -, -, -, -, -, -, -, h13, -⟩ :=
      C2_ranker_structure [⟨"T1", 10⟩, ⟨"T2", 9⟩, ⟨"T3", 8⟩, ⟨"T4", 7⟩, ⟨"T5", 6⟩,
        ⟨"T6", 5⟩, ⟨"T7", 4⟩, ⟨"T8", 3⟩, ⟨"T9", 2⟩, ⟨"T10", 1⟩]
    exact (h13 (by decide)).2.2.2 (by decide)
  · obtain ⟨-, -, -, -, -, -, -, -, -, -, -, -, -, h14⟩ :=
      C2_ranker_structure [⟨"A", 2⟩, ⟨"B", 1⟩]
    exact h14 (by decide) ⟨"A", 2⟩ (by decide)

end NbaPos
